import Mathlib

/-!
Verification of `src/pc2frames.rs`: the DWARF walker that turns debug
information plus a set of live (linker-retained) function names into an
interval map from program-counter ranges to `Frame` records.

Shallow embedding conventions:

* The external collaborators (the `object` crate's section access, `gimli`'s
  byte-level DWARF decoding, `rustc_demangle`, the `intervaltree` builder) are
  abstracted at the exact interface the source consumes them through:
  - a DWARF tree node (`DebuggingInformationEntry`) becomes an `Entry` carrying
    a tag and a list of already-decoded typed attributes (`gimli`'s attribute
    decoder is external; string-table references arrive already resolved);
  - the flattened depth-first cursor (`cursor.next_dfs()`) becomes the list
    `DUnit.steps` of `(delta_depth, entry)` pairs, in cursor order;
  - `unit.entry(offset)` and `dwarf.ranges(unit, offset)` become association
    lists inside `DUnit`;
  - `rustc_demangle::demangle` becomes an arbitrary total transform
    `rd : String → String` threaded through the pass (it never fails; on
    unrecognized input it returns its argument — that instance is `id`);
  - `IntervalTree::from_iter` retains every element it is given, so the map is
    modelled as the element list the source hands to the builder.
* `u64` arithmetic wraps: `low_pc + pc_offset` is taken modulo `2 ^ 64`.
  The DIE-tree depth (`isize` in the source) is modelled as unbounded `Int`.
* Rust panics (`assert!`, `expect`, `unwrap`, `unreachable!`) and `ensure!` /
  `?` error returns both abort the whole pass with no partial output; both are
  modelled as `Except.error` with a `PassError` naming the abort site.
* Rust `String` is modelled at the character level: `len()` counts characters
  (exact for ASCII data) and `pop()` removes the last character.
-/

/-- The abort conditions of the pass.  Each constructor corresponds to one
`ensure!`/`assert!`/`expect`/`unwrap`/`unreachable!` site in `pc2frames.rs`. -/
inductive PassError where
  /-- `ensure!(cursor.next_dfs()?.is_some(), "empty DWARF?")` (line 48). -/
  | emptyDwarf
  /-- `assert!(subprogram_depth.is_none(), "BUG? nested subprogram")` (line 69). -/
  | nestedSubprogram
  /-- `assert_eq!(entry.tag(), DW_TAG_subprogram)` (line 142). -/
  | notASubprogram
  /-- `assert_eq!(entry.tag(), DW_TAG_inlined_subroutine)` (line 232). -/
  | notAnInlinedSubroutine
  /-- the `unreachable!()` / `expect("unreachable")` arms of the attribute
  matches: an attribute present in a form the reader does not expect. -/
  | unexpectedForm
  /-- `low_pc.expect("no low_pc")` (lines 201, 294). -/
  | noLowPc
  /-- `pc_offset.expect("no high_pc")` (lines 202, 295). -/
  | noHighPc
  /-- `Subprogram::from_die(..).unwrap()` on an abstract origin that yields
  no named subprogram (line 248). -/
  | unresolvedOrigin
  /-- `unit.entry(off)?` failing on a dangling unit reference (line 246). -/
  | invalidUnitRef
  /-- `dwarf.ranges(&unit, off)?` failing on a dangling range-list reference
  (line 257). -/
  | invalidRangesRef
  /-- `.expect("unexpected end of range list")` (line 260). -/
  | emptyRangeList
  /-- `origin.expect("no abstract_origin")` (line 300). -/
  | noAbstractOrigin
  /-- `call_file.expect("no call_file")` (line 301). -/
  | noCallFile
  /-- `call_line.expect("no call_line")` (line 302). -/
  | noCallLine
deriving DecidableEq, Repr

/-- The DIE tags the source inspects; every other tag behaves uniformly. -/
inductive Tag where
  | subprogram
  | inlinedSubroutine
  | other
deriving DecidableEq, Repr

/-- The attribute names the source inspects; every other name is skipped by
the `_ => {}` arms of both attribute scans. -/
inductive AttrName where
  | DW_AT_low_pc
  | DW_AT_high_pc
  | DW_AT_linkage_name
  | DW_AT_name
  | DW_AT_inline
  | DW_AT_abstract_origin
  | DW_AT_ranges
  | DW_AT_call_file
  | DW_AT_call_line
  | otherAttr
deriving DecidableEq, Repr

/-- Decoded attribute values (`gimli::AttributeValue`), restricted to the
forms the source matches on.  `debugStrRef` carries the referenced string
already resolved (the string table lookup is external).  `inlineCode true`
is `Inline(DW_INL_inlined)`; `inlineCode false` is any other inline code. -/
inductive AttrValue where
  | addr (a : Nat)
  | udata (v : Nat)
  | debugStrRef (s : String)
  | inlineCode (isInlined : Bool)
  | unitRef (off : Nat)
  | rangeListsRef (off : Nat)
  | fileIndex (idx : Nat)
  | otherForm
deriving DecidableEq, Repr

/-- `gimli::AttributeValue::udata_value()`: `Some` exactly for the
unsigned-data forms. -/
def AttrValue.udata_value : AttrValue → Option Nat
  | .udata v => some v
  | _ => none

/-- One typed attribute of a DIE. -/
structure DAttr where
  name : AttrName
  value : AttrValue
deriving DecidableEq, Repr

/-- A debugging information entry: a tag plus its attribute list, in the
order the attribute cursor yields them. -/
structure Entry where
  tag : Tag
  attrs : List DAttr
deriving DecidableEq, Repr

/-- One compilation unit, at the interface the walker consumes:
`steps` is the full sequence of `cursor.next_dfs()` results (the first one is
the unit root, consumed by the emptiness check and not processed by the loop);
`entryAt` models `unit.entry(offset)`; `rangeLists` models
`dwarf.ranges(&unit, offset)` as the list of `(begin, end)` pairs the range
iterator would yield. -/
structure DUnit where
  steps : List (Int × Entry)
  entryAt : List (Nat × Entry)
  rangeLists : List (Nat × List (Nat × Nat))
deriving Repr

/-- `enum Span { Pc(Range<u64>), Inlined }` — the range is the half-open
interval `[lo, hi)`. -/
inductive Span where
  | pc (lo hi : Nat)
  | inlined
deriving DecidableEq, Repr

/-- `struct Subprogram` (line 122). -/
structure Subprogram where
  depth : Int
  name : String
  span : Span
deriving DecidableEq, Repr

/-- `struct Frame` (line 107): demangled name plus DIE-tree depth. -/
structure Frame where
  name : String
  depth : Int
deriving DecidableEq, Repr

/-- `intervaltree::Element`: one `(range, value)` pair handed to the builder. -/
structure Element where
  range : Nat × Nat
  value : Frame
deriving DecidableEq, Repr

/-- `struct InlinedSubroutine` (line 215). -/
structure InlinedSubroutine where
  call_file : Nat
  call_line : Nat
  origin : Subprogram
  pc : Nat × Nat
deriving DecidableEq, Repr

/-- The output map (`pub type Map = IntervalTree<u64, Frame>`, a transparent
alias).  `IntervalTree::from_iter` (external) retains every element of the
collection it is built from, so the map is modelled as the element list the
source collects. -/
abbrev Map : Type := List Element

/-- `u64` modulus: `low_pc + pc_offset` wraps at `2 ^ 64`. -/
def u64Mod : Nat := 18446744073709551616

/-- `u64::checked_sub`. -/
def checkedSub (a b : Nat) : Option Nat :=
  if b ≤ a then some (a - b) else none

/-- Length of the sample hash `"::hd881d91ced85c2b0"` (line 312). -/
def hash_len : Nat := ("::hd881d91ced85c2b0".toList).length

/-- Lines 312–320 of `demangle`: if the last `hash_len` characters of the
demangled string start with `"::h"`, pop `hash_len` characters. -/
def stripHash (demangled : String) : String :=
  match checkedSub demangled.toList.length hash_len with
  | some pos =>
      let maybe_hash := demangled.toList.drop pos
      if maybe_hash.take 3 = "::h".toList then
        String.mk (List.dropLast^[hash_len] demangled.toList)
      else
        demangled
  | none => demangled

/-- `fn demangle` (line 308): apply the external `rustc_demangle` transform
`rd` (total; the identity on unrecognized input), then strip the trailing
hash. -/
def demangle (rd : String → String) (function : String) : String :=
  stripHash (rd function)

/-- The accumulator of the attribute scan of `Subprogram::from_die`
(lines 146–150). -/
structure SubState where
  inlined : Bool
  linkage_name : Option String
  low_pc : Option Nat
  name : Option String
  pc_offset : Option Nat
deriving DecidableEq, Repr

/-- All-empty initial scan state (lines 146–150). -/
def initSubState : SubState :=
  ⟨false, none, none, none, none⟩

/-- One iteration of the attribute loop of `Subprogram::from_die`
(lines 151–191).  The `unreachable!()` / `expect("unreachable")` arms abort
with `unexpectedForm`; unrecognized attribute names are skipped. -/
def subStep (st : SubState) (a : DAttr) : Except PassError SubState :=
  match a.name with
  | .DW_AT_low_pc =>
      match a.value with
      | .addr addr => .ok { st with low_pc := some addr }
      | _ => .error .unexpectedForm
  | .DW_AT_high_pc =>
      match a.value.udata_value with
      | some v => .ok { st with pc_offset := some v }
      | none => .error .unexpectedForm
  | .DW_AT_linkage_name =>
      match a.value with
      | .debugStrRef s => .ok { st with linkage_name := some s }
      | _ => .error .unexpectedForm
  | .DW_AT_name =>
      match a.value with
      | .debugStrRef s => .ok { st with name := some s }
      | _ => .error .unexpectedForm
  | .DW_AT_inline =>
      match a.value with
      | .inlineCode true => .ok { st with inlined := true }
      | _ => .ok st
  | _ => .ok st

/-- The attribute loop of `Subprogram::from_die`, folded over the attribute
list. -/
def scanSub (st : SubState) : List DAttr → Except PassError SubState
  | [] => .ok st
  | a :: rest =>
      match subStep st a with
      | .ok st' => scanSub st' rest
      | .error e => .error e

/-- Lines 193–210: name resolution (linkage name, else display name, else no
result) and span construction from the finished scan state. -/
def mkSubprogram (depth : Int) (st : SubState) : Except PassError (Option Subprogram) :=
  match st.linkage_name.or st.name with
  | some nm =>
      if st.inlined then
        .ok (some ⟨depth, nm, Span.inlined⟩)
      else
        match st.low_pc with
        | none => .error .noLowPc
        | some lo =>
            match st.pc_offset with
            | none => .error .noHighPc
            | some off => .ok (some ⟨depth, nm, Span.pc lo ((lo + off) % u64Mod)⟩)
  | none => .ok none

/-- `Subprogram::from_die` (lines 134–211). -/
def Subprogram.from_die (entry : Entry) (depth : Int) : Except PassError (Option Subprogram) :=
  if entry.tag = Tag.subprogram then
    match scanSub initSubState entry.attrs with
    | .ok st => mkSubprogram depth st
    | .error e => .error e
  else .error .notASubprogram

/-- The accumulator of the attribute scan of `InlinedSubroutine::from_die`
(lines 236–241). -/
structure InlState where
  at_range : Option (Nat × Nat)
  call_file : Option Nat
  call_line : Option Nat
  low_pc : Option Nat
  origin : Option Subprogram
  pc_offset : Option Nat
deriving DecidableEq, Repr

/-- All-empty initial scan state (lines 236–241). -/
def initInlState : InlState :=
  ⟨none, none, none, none, none, none⟩

/-- One iteration of the attribute loop of `InlinedSubroutine::from_die`
(lines 242–291).  The abstract-origin arm dereferences the unit-local entry
and runs `Subprogram::from_die` on it, unwrapping the option; the ranges arm
dereferences the first entry of the referenced range list.  Note that
`DW_AT_ranges`, `DW_AT_call_file` and `DW_AT_call_line` in unexpected forms
are silently skipped (their `if let` has no `else` arm), while
`DW_AT_abstract_origin`, `DW_AT_low_pc` and `DW_AT_high_pc` in unexpected
forms abort. -/
def inlStep (u : DUnit) (depth : Int) (st : InlState) (a : DAttr) : Except PassError InlState :=
  match a.name with
  | .DW_AT_abstract_origin =>
      match a.value with
      | .unitRef off =>
          match u.entryAt.lookup off with
          | none => .error .invalidUnitRef
          | some other_entry =>
              match Subprogram.from_die other_entry depth with
              | .error e => .error e
              | .ok none => .error .unresolvedOrigin
              | .ok (some sub) => .ok { st with origin := some sub }
      | _ => .error .unexpectedForm
  | .DW_AT_ranges =>
      match a.value with
      | .rangeListsRef off =>
          match u.rangeLists.lookup off with
          | none => .error .invalidRangesRef
          | some rl =>
              match rl.head? with
              | none => .error .emptyRangeList
              | some r => .ok { st with at_range := some r }
      | _ => .ok st
  | .DW_AT_low_pc =>
      match a.value with
      | .addr addr => .ok { st with low_pc := some addr }
      | _ => .error .unexpectedForm
  | .DW_AT_high_pc =>
      match a.value.udata_value with
      | some v => .ok { st with pc_offset := some v }
      | none => .error .unexpectedForm
  | .DW_AT_call_file =>
      match a.value with
      | .fileIndex idx => .ok { st with call_file := some idx }
      | _ => .ok st
  | .DW_AT_call_line =>
      match a.value with
      | .udata line => .ok { st with call_line := some line }
      | _ => .ok st
  | _ => .ok st

/-- The attribute loop of `InlinedSubroutine::from_die`, folded over the
attribute list. -/
def scanInl (u : DUnit) (depth : Int) (st : InlState) : List DAttr → Except PassError InlState
  | [] => .ok st
  | a :: rest =>
      match inlStep u depth st a with
      | .ok st' => scanInl u depth st' rest
      | .error e => .error e

/-- Lines 293–305: resolve the pc range (`at_range`, else the
`[low_pc, low_pc + pc_offset)` pair), then require origin, call file and call
line, in the source's evaluation order. -/
def mkInlinedSubroutine (st : InlState) : Except PassError InlinedSubroutine :=
  match (match st.at_range with
         | some r => Except.ok r
         | none =>
             match st.low_pc with
             | none => Except.error PassError.noLowPc
             | some start =>
                 match st.pc_offset with
                 | none => Except.error PassError.noHighPc
                 | some off => Except.ok (start, (start + off) % u64Mod)) with
  | .error e => .error e
  | .ok pc =>
      match st.origin with
      | none => .error .noAbstractOrigin
      | some o =>
          match st.call_file with
          | none => .error .noCallFile
          | some cf =>
              match st.call_line with
              | none => .error .noCallLine
              | some cl => .ok ⟨cf, cl, o, pc⟩

/-- `InlinedSubroutine::from_die` (lines 223–305). -/
def InlinedSubroutine.from_die (entry : Entry) (depth : Int) (u : DUnit) :
    Except PassError InlinedSubroutine :=
  if entry.tag = Tag.inlinedSubroutine then
    match scanInl u depth initInlState entry.attrs with
    | .ok st => mkInlinedSubroutine st
    | .error e => .error e
  else .error .notAnInlinedSubroutine

/-- Lines 57–62: on each step, if traversal has left the subprogram subtree
(`depth <= subprogram_depth`), reset the inside-subprogram state. -/
def updateSubprogramDepth (sd : Option Int) (depth : Int) : Option Int :=
  match sd with
  | some d => if depth ≤ d then none else some d
  | none => none

/-- The per-unit traversal state of the walk controller (lines 50–53 plus the
shared element vector). -/
structure WalkState where
  depth : Int
  subprogram_depth : Option Int
  elements : List Element
deriving Repr

/-- One iteration of the DFS loop of `from` (lines 54–99). -/
def processEntry (rd : String → String) (live_functions : List String) (u : DUnit)
    (st : WalkState) (step : Int × Entry) : Except PassError WalkState :=
  let depth := st.depth + step.1
  let entry := step.2
  let subprogram_depth := updateSubprogramDepth st.subprogram_depth depth
  if entry.tag = Tag.subprogram then
    match Subprogram.from_die entry depth with
    | .error e => .error e
    | .ok none => .ok ⟨depth, subprogram_depth, st.elements⟩
    | .ok (some sub) =>
        match sub.span with
        | Span.pc lo hi =>
            if live_functions.contains sub.name then
              if subprogram_depth.isSome then
                .error .nestedSubprogram
              else
                .ok ⟨depth, some depth,
                     st.elements ++ [⟨(lo, hi), ⟨demangle rd sub.name, depth⟩⟩]⟩
            else
              .ok ⟨depth, subprogram_depth, st.elements⟩
        | Span.inlined => .ok ⟨depth, subprogram_depth, st.elements⟩
  else if subprogram_depth.isSome then
    if entry.tag = Tag.inlinedSubroutine then
      match InlinedSubroutine.from_die entry depth u with
      | .error e => .error e
      | .ok inline_sub =>
          .ok ⟨depth, subprogram_depth,
               st.elements ++ [⟨inline_sub.pc, ⟨demangle rd inline_sub.origin.name, depth⟩⟩]⟩
    else .ok ⟨depth, subprogram_depth, st.elements⟩
  else .ok ⟨depth, subprogram_depth, st.elements⟩

/-- The DFS loop of `from` over the remaining cursor steps. -/
def runSteps (rd : String → String) (live_functions : List String) (u : DUnit)
    (st : WalkState) : List (Int × Entry) → Except PassError WalkState
  | [] => .ok st
  | s :: rest =>
      match processEntry rd live_functions u st s with
      | .ok st' => runSteps rd live_functions u st' rest
      | .error e => .error e

/-- Traversal of one unit (lines 42–101): the first cursor step is required
to exist (`ensure!(.. , "empty DWARF?")`) and is not processed by the loop;
per-unit state starts at depth `0`, outside any subprogram. -/
def runUnit (rd : String → String) (live_functions : List String) (u : DUnit)
    (elements : List Element) : Except PassError (List Element) :=
  match u.steps with
  | [] => .error .emptyDwarf
  | _ :: rest =>
      match runSteps rd live_functions u ⟨0, none, elements⟩ rest with
      | .ok st => .ok st.elements
      | .error e => .error e

/-- The unit loop of `from`: the element vector is shared across units,
the per-unit traversal state is not. -/
def runUnits (rd : String → String) (live_functions : List String)
    (elements : List Element) : List DUnit → Except PassError (List Element)
  | [] => .ok elements
  | u :: rest =>
      match runUnit rd live_functions u elements with
      | .ok elements' => runUnits rd live_functions elements' rest
      | .error e => .error e

/-- `pub fn from` (line 13): section loading and DWARF parsing are external;
the walker produces the element list handed to `IntervalTree::from_iter`,
which retains all of it. -/
def «from» (rd : String → String) (live_functions : List String)
    (units : List DUnit) : Except PassError Map :=
  runUnits rd live_functions [] units

/-- The `load_section` closure of `from` (lines 20–26).  `section_by_name`
models `object.section_by_name(id.name())`, yielding — when the section is
present — the outcome of `s.uncompressed_data()`.  An absent section and a
present section whose data cannot be obtained both load as the empty slice,
and the closure itself never returns an error. -/
def load_section (section_by_name : String → Option (Except String (List Nat)))
    (id : String) : Except String (List Nat) :=
  .ok (match section_by_name id with
       | some s =>
           match s with
           | .ok data => data
           | .error _ => []
       | none => [])

/-! ## Helper lemmas: the walk only appends elements, and splits along the step list -/

/-- Splitting the DFS loop at a list split point. -/
theorem runSteps_append (rd : String → String) (live : List String) (u : DUnit)
    (l1 l2 : List (Int × Entry)) (st : WalkState) :
    runSteps rd live u st (l1 ++ l2) =
      match runSteps rd live u st l1 with
      | .ok st' => runSteps rd live u st' l2
      | .error e => .error e := by
  induction l1 generalizing st with
  | nil => simp [runSteps]
  | cons s rest ih =>
      simp only [List.cons_append, runSteps]
      cases hpe : processEntry rd live u st s with
      | ok st' => simp [ih]
      | error e => simp

/-- Splitting the unit loop at a list split point. -/
theorem runUnits_append (rd : String → String) (live : List String)
    (us1 us2 : List DUnit) (acc : List Element) :
    runUnits rd live acc (us1 ++ us2) =
      match runUnits rd live acc us1 with
      | .ok acc' => runUnits rd live acc' us2
      | .error e => .error e := by
  induction us1 generalizing acc with
  | nil => simp [runUnits]
  | cons u rest ih =>
      simp only [List.cons_append, runUnits]
      cases hru : runUnit rd live u acc with
      | ok acc' => simp [ih]
      | error e => simp

/-- A single DFS step only ever appends to the element vector. -/
theorem processEntry_elements {rd : String → String} {live : List String} {u : DUnit}
    {st : WalkState} {step : Int × Entry} {st' : WalkState}
    (h : processEntry rd live u st step = .ok st') :
    ∃ t, st'.elements = st.elements ++ t := by
  simp only [processEntry] at h
  split at h
  · split at h
    · exact absurd h (by simp)
    · exact ⟨[], by cases h; simp⟩
    · split at h
      · split at h
        · split at h
          · exact absurd h (by simp)
          · injection h with h
            subst h
            exact ⟨_, rfl⟩
        · exact ⟨[], by cases h; simp⟩
      · exact ⟨[], by cases h; simp⟩
  · split at h
    · split at h
      · split at h
        · exact absurd h (by simp)
        · injection h with h
          subst h
          exact ⟨_, rfl⟩
      · exact ⟨[], by cases h; simp⟩
    · exact ⟨[], by cases h; simp⟩

/-- The DFS loop only ever appends to the element vector. -/
theorem runSteps_elements {rd : String → String} {live : List String} {u : DUnit}
    {st : WalkState} {l : List (Int × Entry)} {st' : WalkState}
    (h : runSteps rd live u st l = .ok st') :
    ∃ t, st'.elements = st.elements ++ t := by
  induction l generalizing st with
  | nil =>
      injection h with h
      subst h
      exact ⟨[], by simp⟩
  | cons s rest ih =>
      simp only [runSteps] at h
      cases hpe : processEntry rd live u st s with
      | ok st1 =>
          rw [hpe] at h
          obtain ⟨t1, ht1⟩ := processEntry_elements hpe
          obtain ⟨t2, ht2⟩ := ih h
          exact ⟨t1 ++ t2, by rw [ht2, ht1, List.append_assoc]⟩
      | error e =>
          rw [hpe] at h
          cases h

/-- A unit traversal only ever appends to the element vector. -/
theorem runUnit_elements {rd : String → String} {live : List String} {u : DUnit}
    {acc es : List Element} (h : runUnit rd live u acc = .ok es) :
    ∃ t, es = acc ++ t := by
  unfold runUnit at h
  split at h
  · cases h
  · split at h
    · injection h with h
      subst h
      exact runSteps_elements (by assumption)
    · cases h

/-- The unit loop only ever appends to the element vector. -/
theorem runUnits_elements {rd : String → String} {live : List String}
    {us : List DUnit} {acc es : List Element}
    (h : runUnits rd live acc us = .ok es) :
    ∃ t, es = acc ++ t := by
  induction us generalizing acc with
  | nil =>
      injection h with h
      subst h
      exact ⟨[], by simp⟩
  | cons u rest ih =>
      simp only [runUnits] at h
      cases hru : runUnit rd live u acc with
      | ok acc1 =>
          rw [hru] at h
          obtain ⟨t1, ht1⟩ := runUnit_elements hru
          obtain ⟨t2, ht2⟩ := ih h
          exact ⟨t1 ++ t2, by rw [ht2, ht1, List.append_assoc]⟩
      | error e =>
          rw [hru] at h
          cases h

/-! ## Verification devices: depth bookkeeping along the processed step list -/

/-- The DIE-tree depth the loop's `depth` counter holds after processing a
given list of cursor steps (the counter starts at `0` and adds each step's
delta). -/
def depthAt (hist : List (Int × Entry)) : Int :=
  hist.foldl (fun d s => d + s.1) 0

/-- `depthAt` of one more step. -/
theorem depthAt_concat (h : List (Int × Entry)) (s : Int × Entry) :
    depthAt (h ++ [s]) = depthAt h + s.1 := by
  simp [depthAt, List.foldl_append]

/-- Popping the last element `n` times is taking all but the last `n`. -/
theorem dropLast_iterate_eq_take {α : Type} (n : Nat) (l : List α) :
    List.dropLast^[n] l = l.take (l.length - n) := by
  induction n generalizing l with
  | zero => simp
  | succ n ih =>
      rw [Function.iterate_succ_apply, ih, List.dropLast_eq_take, List.take_take,
          List.length_take]
      congr 1
      omega

/-- `mkSubprogram` uses its depth argument only for the `depth` field of the
result. -/
theorem mkSubprogram_depth (d : Int) (st : SubState) :
    mkSubprogram d st =
      (mkSubprogram 0 st).map (Option.map (fun s => ⟨d, s.name, s.span⟩)) := by
  unfold mkSubprogram
  split
  · split
    · simp [Except.map]
    · split
      · simp [Except.map]
      · split
        · simp [Except.map]
        · simp [Except.map]
  · simp [Except.map]

/-- `Subprogram::from_die` uses its depth argument only for the `depth` field
of the result. -/
theorem from_die_depth (e : Entry) (d : Int) :
    Subprogram.from_die e d =
      (Subprogram.from_die e 0).map (Option.map (fun s => ⟨d, s.name, s.span⟩)) := by
  unfold Subprogram.from_die
  split
  · cases hs : scanSub initSubState e.attrs with
    | ok st =>
        simp only [mkSubprogram_depth d st]
    | error err => simp [Except.map]
  · simp [Except.map]

/-- An entry that is a span-bearing subprogram definition whose name is in
the live set (the entries for which the walker enters the
inside-live-function state). -/
def isLiveSpanSub (live : List String) (e : Entry) : Bool :=
  match Subprogram.from_die e 0 with
  | .ok (some sub) =>
      match sub.span with
      | .pc _ _ => live.contains sub.name
      | .inlined => false
  | _ => false

/-! ## Only the nested-subprogram assertion can raise `nestedSubprogram` -/

/-- One subprogram attribute step never raises the nested-subprogram abort. -/
theorem subStep_ne_nested (st : SubState) (a : DAttr) :
    subStep st a ≠ .error .nestedSubprogram := by
  unfold subStep
  split <;> (try split) <;> simp

/-- The subprogram attribute scan never raises the nested-subprogram abort. -/
theorem scanSub_ne_nested (attrs : List DAttr) : ∀ st : SubState,
    scanSub st attrs ≠ .error .nestedSubprogram := by
  induction attrs with
  | nil => intro st h; cases h
  | cons a rest ih =>
      intro st
      simp only [scanSub]
      cases hss : subStep st a with
      | ok st' => exact ih st'
      | error e =>
          intro hcon
          injection hcon with hcon
          subst hcon
          exact subStep_ne_nested st a hss
  
/-- Span construction never raises the nested-subprogram abort. -/
theorem mkSubprogram_ne_nested (depth : Int) (st : SubState) :
    mkSubprogram depth st ≠ .error .nestedSubprogram := by
  unfold mkSubprogram
  split
  · split
    · simp
    · split
      · simp
      · split <;> simp
  · simp

/-- `Subprogram::from_die` never raises the nested-subprogram abort. -/
theorem from_die_ne_nested (e : Entry) (depth : Int) :
    Subprogram.from_die e depth ≠ .error .nestedSubprogram := by
  unfold Subprogram.from_die
  split
  · cases hs : scanSub initSubState e.attrs with
    | ok st => exact mkSubprogram_ne_nested depth st
    | error err =>
        intro hcon
        injection hcon with hcon
        subst hcon
        exact scanSub_ne_nested e.attrs initSubState hs
  · simp

/-- One inlined-subroutine attribute step never raises the nested-subprogram
abort. -/
theorem inlStep_ne_nested (u : DUnit) (depth : Int) (st : InlState) (a : DAttr) :
    inlStep u depth st a ≠ .error .nestedSubprogram := by
  unfold inlStep
  split
  · split
    · split
      · simp
      · split
        · rename_i err heq
          intro hcon
          injection hcon with hcon
          subst hcon
          exact from_die_ne_nested _ _ heq
        · simp
        · simp
    · simp
  · split
    · split
      · simp
      · split <;> simp
    · simp
  · split <;> simp
  · split <;> simp
  · split <;> simp
  · split <;> simp
  · simp

/-- The inlined-subroutine attribute scan never raises the nested-subprogram
abort. -/
theorem scanInl_ne_nested (u : DUnit) (depth : Int) (attrs : List DAttr) :
    ∀ st : InlState, scanInl u depth st attrs ≠ .error .nestedSubprogram := by
  induction attrs with
  | nil => intro st h; cases h
  | cons a rest ih =>
      intro st
      simp only [scanInl]
      cases his : inlStep u depth st a with
      | ok st' => exact ih st'
      | error e =>
          intro hcon
          injection hcon with hcon
          subst hcon
          exact inlStep_ne_nested u depth st a his

/-- Inlined-subroutine construction never raises the nested-subprogram abort. -/
theorem mkInlinedSubroutine_ne_nested (st : InlState) :
    mkInlinedSubroutine st ≠ .error .nestedSubprogram := by
  unfold mkInlinedSubroutine
  split
  · rename_i e heq
    intro hcon
    injection hcon with hcon
    subst hcon
    split at heq
    · cases heq
    · split at heq
      · injection heq with h2
        cases h2
      · split at heq
        · injection heq with h2
          cases h2
        · cases heq
  · split
    · simp
    · split
      · simp
      · split <;> simp

/-- `InlinedSubroutine::from_die` never raises the nested-subprogram abort. -/
theorem inl_from_die_ne_nested (e : Entry) (depth : Int) (u : DUnit) :
    InlinedSubroutine.from_die e depth u ≠ .error .nestedSubprogram := by
  unfold InlinedSubroutine.from_die
  split
  · cases hs : scanInl u depth initInlState e.attrs with
    | ok st => exact mkInlinedSubroutine_ne_nested st
    | error err =>
        intro hcon
        injection hcon with hcon
        subst hcon
        exact scanInl_ne_nested u depth e.attrs initInlState hs
  · simp

/-! ## The inside-live-function invariant of the walk controller -/

/-- If `from_die` yields a live span-bearing subprogram at any depth, the
entry is a live span-bearing subprogram entry. -/
theorem isLiveSpanSub_of_from_die {live : List String} {e : Entry} {d : Int}
    {sub : Subprogram} {lo hi : Nat}
    (hfd : Subprogram.from_die e d = .ok (some sub)) (hsp : sub.span = Span.pc lo hi)
    (hlive : live.contains sub.name = true) :
    isLiveSpanSub live e = true := by
  have hd := from_die_depth e d
  rw [hfd] at hd
  unfold isLiveSpanSub
  cases hfd0 : Subprogram.from_die e 0 with
  | error err => rw [hfd0] at hd; simp [Except.map] at hd
  | ok o =>
      cases o with
      | none => rw [hfd0] at hd; simp [Except.map] at hd
      | some s0 =>
          rw [hfd0] at hd
          simp [Except.map] at hd
          subst hd
          simp at hsp hlive
          simp [hsp, hlive]

/-- Inverting the leaving-check: surviving as `some d` means the state was
already `some d` and the new depth is still strictly below the subtree. -/
theorem updateSubprogramDepth_some {sd : Option Int} {depth d : Int}
    (h : updateSubprogramDepth sd depth = some d) :
    sd = some d ∧ d < depth := by
  cases sd with
  | none => simp [updateSubprogramDepth] at h
  | some d0 =>
      simp only [updateSubprogramDepth] at h
      by_cases hle : depth ≤ d0
      · rw [if_pos hle] at h
        cases h
      · rw [if_neg hle] at h
        injection h with h
        subst h
        exact ⟨rfl, by omega⟩

/-- Characterization of a successful DFS step: the depth is the updated
depth, and the inside-live state is either carried through the leaving-check
unchanged, or freshly set at the new depth — the latter only at a live
span-bearing subprogram entry encountered outside any live subtree. -/
theorem processEntry_ok {rd : String → String} {live : List String} {u : DUnit}
    {st : WalkState} {step : Int × Entry} {st' : WalkState}
    (h : processEntry rd live u st step = .ok st') :
    st'.depth = st.depth + step.1 ∧
    (st'.subprogram_depth = updateSubprogramDepth st.subprogram_depth (st.depth + step.1) ∨
      (st'.subprogram_depth = some (st.depth + step.1) ∧
        updateSubprogramDepth st.subprogram_depth (st.depth + step.1) = none ∧
        isLiveSpanSub live step.2 = true)) := by
  simp only [processEntry] at h
  split at h
  · split at h
    · cases h
    · injection h with h
      subst h
      exact ⟨rfl, Or.inl rfl⟩
    · rename_i sub hfd
      split at h
      · rename_i lo hi hsp
        split at h
        · rename_i hlive
          split at h
          · cases h
          · rename_i hns
            injection h with h
            subst h
            refine ⟨rfl, Or.inr ⟨rfl, ?_, isLiveSpanSub_of_from_die hfd hsp hlive⟩⟩
            cases hupd : updateSubprogramDepth st.subprogram_depth (st.depth + step.1) with
            | none => rfl
            | some d => rw [hupd] at hns; simp at hns
        · injection h with h
          subst h
          exact ⟨rfl, Or.inl rfl⟩
      · injection h with h
        subst h
        exact ⟨rfl, Or.inl rfl⟩
  · split at h
    · split at h
      · split at h
        · cases h
        · injection h with h
          subst h
          exact ⟨rfl, Or.inl rfl⟩
      · injection h with h
        subst h
        exact ⟨rfl, Or.inl rfl⟩
    · injection h with h
      subst h
      exact ⟨rfl, Or.inl rfl⟩

/-- Inverting the nested-subprogram abort: it is raised exactly at a live
span-bearing subprogram entry reached while the inside-live state is still
set after the leaving-check. -/
theorem processEntry_error_nested {rd : String → String} {live : List String} {u : DUnit}
    {st : WalkState} {step : Int × Entry}
    (h : processEntry rd live u st step = .error .nestedSubprogram) :
    step.2.tag = Tag.subprogram ∧
    (updateSubprogramDepth st.subprogram_depth (st.depth + step.1)).isSome = true ∧
    ∃ sub lo hi, Subprogram.from_die step.2 (st.depth + step.1) = .ok (some sub) ∧
      sub.span = Span.pc lo hi ∧ live.contains sub.name = true := by
  simp only [processEntry] at h
  split at h
  · rename_i htag
    split at h
    · rename_i err hfd
      injection h with h
      subst h
      exact absurd hfd (from_die_ne_nested _ _)
    · cases h
    · rename_i sub hfd
      split at h
      · rename_i lo hi hsp
        split at h
        · rename_i hlive
          split at h
          · rename_i hns
            exact ⟨htag, hns, sub, lo, hi, hfd, hsp, hlive⟩
          · cases h
        · cases h
      · cases h
  · split at h
    · split at h
      · split at h
        · rename_i err hifd
          injection h with h
          subst h
          exact absurd hifd (inl_from_die_ne_nested _ _ _)
        · cases h
      · cases h
    · cases h

/-- The meaning of the inside-live-function state: the processed history
decomposes as `p1 ++ x :: p2` where `x` is a live span-bearing subprogram
entry entered at depth `d`, and every depth reached since (every nonempty
prefix of `p2`) stayed strictly below `x`'s subtree root. -/
def InsideLive (live : List String) (hist : List (Int × Entry)) (d : Int) : Prop :=
  ∃ p1 x p2, hist = p1 ++ x :: p2 ∧ isLiveSpanSub live x.2 = true ∧
    depthAt (p1 ++ [x]) = d ∧
    ∀ m : Nat, 0 < m → m ≤ p2.length → d < depthAt (p1 ++ x :: p2.take m)

/-- The loop invariant of the walk controller, relating the state to the
processed history: the depth counter is the accumulated delta sum, and the
inside-live state, when set, is explained by `InsideLive`. -/
def WalkInv (live : List String) (hist : List (Int × Entry)) (st : WalkState) : Prop :=
  st.depth = depthAt hist ∧
    ∀ d, st.subprogram_depth = some d → InsideLive live hist d

/-- Invariant C as a property of a unit's processed cursor-step list: no live
span-bearing subprogram entry `y` occurs strictly inside the subtree of an
earlier live span-bearing subprogram entry `x` (all depths from just after
`x` up to and including `y` staying strictly greater than `x`'s depth). -/
def NoNestedLive (live : List String) (steps : List (Int × Entry)) : Prop :=
  ∀ p1 x p2 y p3, steps = p1 ++ x :: (p2 ++ y :: p3) →
    isLiveSpanSub live x.2 = true → isLiveSpanSub live y.2 = true →
    ¬(∀ m : Nat, 0 < m → m ≤ p2.length + 1 →
        depthAt (p1 ++ [x]) < depthAt (p1 ++ x :: (p2 ++ [y]).take m))

/-- A successful DFS step preserves the walk invariant. -/
theorem walkInv_preserved {rd : String → String} {live : List String} {u : DUnit}
    {hist : List (Int × Entry)} {st : WalkState} {step : Int × Entry} {st' : WalkState}
    (hinv : WalkInv live hist st) (h : processEntry rd live u st step = .ok st') :
    WalkInv live (hist ++ [step]) st' := by
  obtain ⟨hdep, hsd⟩ := hinv
  obtain ⟨hd', hcase⟩ := processEntry_ok h
  refine ⟨by rw [hd', depthAt_concat, hdep], ?_⟩
  intro d hsome
  cases hcase with
  | inl hcarry =>
      rw [hcarry] at hsome
      obtain ⟨hstsd, hlt⟩ := updateSubprogramDepth_some hsome
      obtain ⟨p1, x, p2, hh, hx, hdx, hmid⟩ := hsd d hstsd
      refine ⟨p1, x, p2 ++ [step], by rw [hh]; simp, hx, hdx, ?_⟩
      intro m hm hmle
      by_cases hm2 : m ≤ p2.length
      · rw [List.take_append_of_le_length hm2]
        exact hmid m hm hm2
      · have hmeq : m = p2.length + 1 := by
          simp [List.length_append] at hmle
          omega
        subst hmeq
        have htake : (p2 ++ [step]).take (p2.length + 1) = p2 ++ [step] := by
          have hlen : (p2 ++ [step]).length = p2.length + 1 := by simp
          rw [← hlen, List.take_length]
        rw [htake]
        have hre : p1 ++ x :: (p2 ++ [step]) = (p1 ++ x :: p2) ++ [step] := by simp
        rw [hre, ← hh, depthAt_concat, ← hdep]
        exact hlt
  | inr hfresh =>
      obtain ⟨hset, hupd, hlivex⟩ := hfresh
      rw [hset] at hsome
      injection hsome with hsome
      subst hsome
      refine ⟨hist, step, [], by simp, hlivex, ?_, ?_⟩
      · rw [depthAt_concat, hdep]
      · intro m hm hmle
        simp at hmle
        omega

/-- Under Invariant C on the remaining step list, the DFS loop never raises
the nested-subprogram abort. -/
theorem runSteps_no_nested {rd : String → String} {live : List String} {u : DUnit}
    (l : List (Int × Entry)) :
    ∀ hist st, WalkInv live hist st → NoNestedLive live (hist ++ l) →
      runSteps rd live u st l ≠ .error .nestedSubprogram := by
  induction l with
  | nil =>
      intro hist st _ _ h
      cases h
  | cons s rest ih =>
      intro hist st hinv hnn
      simp only [runSteps]
      cases hpe : processEntry rd live u st s with
      | ok st' =>
          have hre : hist ++ s :: rest = (hist ++ [s]) ++ rest := by simp
          rw [hre] at hnn
          exact ih (hist ++ [s]) st' (walkInv_preserved hinv hpe) hnn
      | error e =>
          intro hcon
          injection hcon with hcon
          subst hcon
          obtain ⟨htag, hsome, sub, lo, hi, hfd, hsp, hlive⟩ := processEntry_error_nested hpe
          obtain ⟨d, hd⟩ := Option.isSome_iff_exists.mp hsome
          obtain ⟨hstsd, hlt⟩ := updateSubprogramDepth_some hd
          obtain ⟨p1, x, p2, hh, hx, hdx, hmid⟩ := hinv.2 d hstsd
          have hlivey : isLiveSpanSub live s.2 = true :=
            isLiveSpanSub_of_from_die hfd hsp hlive
          refine hnn p1 x p2 s rest ?_ hx hlivey ?_
          · rw [hh]
            simp
          · intro m hm hmle
            rw [hdx]
            by_cases hm2 : m ≤ p2.length
            · rw [List.take_append_of_le_length hm2]
              exact hmid m hm hm2
            · have hmeq : m = p2.length + 1 := by omega
              subst hmeq
              have htake : (p2 ++ [s]).take (p2.length + 1) = p2 ++ [s] := by
                have hlen : (p2 ++ [s]).length = p2.length + 1 := by simp
                rw [← hlen, List.take_length]
              rw [htake]
              have hre : p1 ++ x :: (p2 ++ [s]) = (p1 ++ x :: p2) ++ [s] := by simp
              rw [hre, ← hh, depthAt_concat, ← hinv.1]
              exact hlt

/-- Under Invariant C on every unit's processed step list, the whole pass
never raises the nested-subprogram abort. -/
theorem runUnits_no_nested {rd : String → String} {live : List String}
    (us : List DUnit) :
    ∀ acc, (∀ u, u ∈ us → NoNestedLive live u.steps.tail) →
      runUnits rd live acc us ≠ .error .nestedSubprogram := by
  induction us with
  | nil =>
      intro acc _ h
      cases h
  | cons u rest ih =>
      intro acc hnn
      simp only [runUnits]
      cases hru : runUnit rd live u acc with
      | ok acc' =>
          exact ih acc' (fun v hv => hnn v (List.mem_cons_of_mem u hv))
      | error e =>
          intro hcon
          injection hcon with hcon
          subst hcon
          unfold runUnit at hru
          split at hru
          · cases hru
          · rename_i s0 rest0 hsteps
            split at hru
            · cases hru
            · rename_i err hrs
              injection hru with hru
              subst hru
              refine runSteps_no_nested rest0 [] ⟨0, none, acc⟩
                ⟨rfl, by intro d h; cases h⟩ ?_ hrs
              have := hnn u (List.mem_cons_self u rest)
              rw [hsteps] at this
              exact this

/-! ## Spec-side descriptions of the demangler's suffix strip -/

/-- A hexadecimal digit, as the spec's "16 hexadecimal digits". -/
def isHexDigit (c : Char) : Bool :=
  c.isDigit || ('a' ≤ c && c ≤ 'f') || ('A' ≤ c && c ≤ 'F')

/-- The spec's claimed trigger: the string ends in `"::h"` followed by 16
hexadecimal digits (a 19-character trailing hash). -/
def HasHexHashSuffix (s : String) : Prop :=
  19 ≤ s.toList.length ∧
    (s.toList.drop (s.toList.length - 19)).take 3 = "::h".toList ∧
    ∀ c ∈ (s.toList.drop (s.toList.length - 19)).drop 3, isHexDigit c = true

instance (s : String) : Decidable (HasHexHashSuffix s) := by
  unfold HasHexHashSuffix
  infer_instance

/-- Modelled from the spec, amended to the code's actual trigger: strip the
final 19 characters exactly when they begin with `"::h"` (the 16 characters
after `"::h"` are not inspected). -/
def stripSpecAmended (d : String) : String :=
  if 19 ≤ d.toList.length ∧ "::h".toList <+: d.toList.drop (d.toList.length - 19) then
    String.mk (d.toList.take (d.toList.length - 19))
  else d

/-- `stripHash` when the last 19 characters start with `"::h"`. -/
theorem stripHash_strips (d : String) (h19 : 19 ≤ d.toList.length)
    (htake : (d.toList.drop (d.toList.length - 19)).take 3 = "::h".toList) :
    stripHash d = String.mk (d.toList.take (d.toList.length - 19)) := by
  unfold stripHash checkedSub
  rw [show hash_len = 19 from rfl, if_pos h19]
  show (if (d.toList.drop (d.toList.length - 19)).take 3 = "::h".toList then
          String.mk (List.dropLast^[19] d.toList) else d) =
       String.mk (d.toList.take (d.toList.length - 19))
  rw [if_pos htake, dropLast_iterate_eq_take]

/-- `stripHash` when the string is long enough but the last 19 characters do
not start with `"::h"`. -/
theorem stripHash_keeps (d : String) (h19 : 19 ≤ d.toList.length)
    (htake : ¬((d.toList.drop (d.toList.length - 19)).take 3 = "::h".toList)) :
    stripHash d = d := by
  unfold stripHash checkedSub
  rw [show hash_len = 19 from rfl, if_pos h19]
  show (if (d.toList.drop (d.toList.length - 19)).take 3 = "::h".toList then
          String.mk (List.dropLast^[19] d.toList) else d) = d
  rw [if_neg htake]

/-- `stripHash` on a string shorter than 19 characters. -/
theorem stripHash_short (d : String) (h19 : ¬(19 ≤ d.toList.length)) :
    stripHash d = d := by
  unfold stripHash checkedSub
  rw [show hash_len = 19 from rfl, if_neg h19]

/-- The source's strip agrees with the amended spec-side description. -/
theorem stripHash_eq_spec (d : String) : stripHash d = stripSpecAmended d := by
  unfold stripSpecAmended
  by_cases h19 : 19 ≤ d.toList.length
  · by_cases hpre : "::h".toList <+: d.toList.drop (d.toList.length - 19)
    · have htake : (d.toList.drop (d.toList.length - 19)).take 3 = "::h".toList := by
        rw [List.prefix_iff_eq_take] at hpre
        exact hpre.symm
      rw [stripHash_strips d h19 htake, if_pos ⟨h19, hpre⟩]
    · have htake : ¬((d.toList.drop (d.toList.length - 19)).take 3 = "::h".toList) := by
        intro hc
        exact hpre (by rw [List.prefix_iff_eq_take]; exact hc.symm)
      rw [stripHash_keeps d h19 htake,
          if_neg (fun hc : _ ∧ _ => htake (by rw [List.prefix_iff_eq_take] at hc; exact hc.2.symm))]
  · rw [stripHash_short d h19,
        if_neg (fun hc : _ ∧ _ => h19 hc.1)]

/-! ## Branch equations for a single DFS step -/

/-- A subprogram entry with no usable name: skipped, no emission, traversal
state only leave-updated. -/
theorem processEntry_sub_none {rd : String → String} {live : List String} {u : DUnit}
    {st : WalkState} {step : Int × Entry}
    (htag : step.2.tag = Tag.subprogram)
    (hfd : Subprogram.from_die step.2 (st.depth + step.1) = .ok none) :
    processEntry rd live u st step =
      .ok ⟨st.depth + step.1,
           updateSubprogramDepth st.subprogram_depth (st.depth + step.1), st.elements⟩ := by
  simp only [processEntry]
  simp [htag, hfd]

/-- An inlined-only subprogram template: skipped, no emission. -/
theorem processEntry_sub_inlined {rd : String → String} {live : List String} {u : DUnit}
    {st : WalkState} {step : Int × Entry} {sub : Subprogram}
    (htag : step.2.tag = Tag.subprogram)
    (hfd : Subprogram.from_die step.2 (st.depth + step.1) = .ok (some sub))
    (hsp : sub.span = Span.inlined) :
    processEntry rd live u st step =
      .ok ⟨st.depth + step.1,
           updateSubprogramDepth st.subprogram_depth (st.depth + step.1), st.elements⟩ := by
  simp only [processEntry]
  simp [htag, hfd, hsp]

/-- A dead (non-live) span-bearing subprogram: no emission, and the
inside-live state is not entered for it. -/
theorem processEntry_sub_dead {rd : String → String} {live : List String} {u : DUnit}
    {st : WalkState} {step : Int × Entry} {sub : Subprogram} {lo hi : Nat}
    (htag : step.2.tag = Tag.subprogram)
    (hfd : Subprogram.from_die step.2 (st.depth + step.1) = .ok (some sub))
    (hsp : sub.span = Span.pc lo hi)
    (hlive : live.contains sub.name = false) :
    processEntry rd live u st step =
      .ok ⟨st.depth + step.1,
           updateSubprogramDepth st.subprogram_depth (st.depth + step.1), st.elements⟩ := by
  have hmem : ¬(sub.name ∈ live) := by simpa using hlive
  simp only [processEntry]
  simp [htag, hfd, hsp, hmem]

/-- A live span-bearing subprogram met outside any live subtree: enter the
inside-live state and emit exactly one element carrying the declared range
and the demangled name. -/
theorem processEntry_sub_live_clear {rd : String → String} {live : List String} {u : DUnit}
    {st : WalkState} {step : Int × Entry} {sub : Subprogram} {lo hi : Nat}
    (htag : step.2.tag = Tag.subprogram)
    (hfd : Subprogram.from_die step.2 (st.depth + step.1) = .ok (some sub))
    (hsp : sub.span = Span.pc lo hi)
    (hlive : live.contains sub.name = true)
    (hupd : updateSubprogramDepth st.subprogram_depth (st.depth + step.1) = none) :
    processEntry rd live u st step =
      .ok ⟨st.depth + step.1, some (st.depth + step.1),
           st.elements ++ [⟨(lo, hi), ⟨demangle rd sub.name, st.depth + step.1⟩⟩]⟩ := by
  have hmem : sub.name ∈ live := by simpa using hlive
  simp only [processEntry]
  simp [htag, hfd, hsp, hmem, hupd]

/-- A live span-bearing subprogram met while still inside a live subtree:
the fatal nested-subprogram abort. -/
theorem processEntry_sub_live_nested {rd : String → String} {live : List String} {u : DUnit}
    {st : WalkState} {step : Int × Entry} {sub : Subprogram} {lo hi : Nat}
    (htag : step.2.tag = Tag.subprogram)
    (hfd : Subprogram.from_die step.2 (st.depth + step.1) = .ok (some sub))
    (hsp : sub.span = Span.pc lo hi)
    (hlive : live.contains sub.name = true)
    (hupd : (updateSubprogramDepth st.subprogram_depth (st.depth + step.1)).isSome = true) :
    processEntry rd live u st step = .error .nestedSubprogram := by
  have hmem : sub.name ∈ live := by simpa using hlive
  simp only [processEntry]
  simp [htag, hfd, hsp, hmem, hupd]

/-- An inline-call-site entry inside the live state: emit exactly one element
carrying the resolved pc range and the demangled origin name. -/
theorem processEntry_inl_emit {rd : String → String} {live : List String} {u : DUnit}
    {st : WalkState} {step : Int × Entry} {d : Int} {inl : InlinedSubroutine}
    (htag : step.2.tag = Tag.inlinedSubroutine)
    (hupd : updateSubprogramDepth st.subprogram_depth (st.depth + step.1) = some d)
    (hifd : InlinedSubroutine.from_die step.2 (st.depth + step.1) u = .ok inl) :
    processEntry rd live u st step =
      .ok ⟨st.depth + step.1, some d,
           st.elements ++ [⟨inl.pc, ⟨demangle rd inl.origin.name, st.depth + step.1⟩⟩]⟩ := by
  simp only [processEntry]
  simp [htag, hupd, hifd]

/-- An inline-call-site entry outside the live state: skipped, no emission. -/
theorem processEntry_inl_skip {rd : String → String} {live : List String} {u : DUnit}
    {st : WalkState} {step : Int × Entry}
    (htag : step.2.tag = Tag.inlinedSubroutine)
    (hupd : updateSubprogramDepth st.subprogram_depth (st.depth + step.1) = none) :
    processEntry rd live u st step = .ok ⟨st.depth + step.1, none, st.elements⟩ := by
  simp only [processEntry]
  simp [htag, hupd]

/-- Elements present after any successfully processed step of any unit
survive into the final map of the whole pass. -/
theorem element_in_from {rd : String → String} {live : List String}
    {us1 : List DUnit} {u : DUnit} {us2 : List DUnit} {acc : List Element}
    {s0 step : Int × Entry} {pre post : List (Int × Entry)} {st st1 : WalkState} {es : Map}
    (hus1 : runUnits rd live [] us1 = .ok acc)
    (hsteps : u.steps = s0 :: (pre ++ step :: post))
    (hpre : runSteps rd live u ⟨0, none, acc⟩ pre = .ok st)
    (hstep : processEntry rd live u st step = .ok st1)
    (hfrom : «from» rd live (us1 ++ u :: us2) = .ok es) :
    ∀ x ∈ st1.elements, x ∈ es := by
  intro x hx
  unfold «from» at hfrom
  rw [runUnits_append] at hfrom
  simp only [hus1] at hfrom
  simp only [runUnits] at hfrom
  cases hru : runUnit rd live u acc with
  | error e =>
      simp only [hru] at hfrom
      cases hfrom
  | ok esu =>
      simp only [hru] at hfrom
      obtain ⟨t, ht⟩ := runUnits_elements hfrom
      unfold runUnit at hru
      simp only [hsteps] at hru
      rw [runSteps_append] at hru
      simp only [hpre] at hru
      simp only [runSteps] at hru
      simp only [hstep] at hru
      cases hpost : runSteps rd live u st1 post with
      | error e =>
          rw [hpost] at hru
          cases hru
      | ok stf =>
          rw [hpost] at hru
          injection hru with hru
          subst hru
          obtain ⟨t2, ht2⟩ := runSteps_elements hpost
          rw [ht, ht2]
          exact List.mem_append_left _ (List.mem_append_left _ hx)

/-! ## Concrete sample inputs (used by witnesses and counterexamples) -/

/-- A unit-root entry (the compile-unit DIE), consumed by the emptiness
check and not processed by the loop. -/
def exRoot : Entry := ⟨Tag.other, []⟩

/-- A live span-bearing function definition `foo` over `[0x1000, 0x1010)`. -/
def exFooDef : Entry :=
  ⟨Tag.subprogram,
   [⟨AttrName.DW_AT_name, AttrValue.debugStrRef "foo"⟩,
    ⟨AttrName.DW_AT_low_pc, AttrValue.addr 4096⟩,
    ⟨AttrName.DW_AT_high_pc, AttrValue.udata 16⟩]⟩

/-- A span-bearing function definition `bar` over `[0x2000, 0x2010)`. -/
def exBarDef : Entry :=
  ⟨Tag.subprogram,
   [⟨AttrName.DW_AT_name, AttrValue.debugStrRef "bar"⟩,
    ⟨AttrName.DW_AT_low_pc, AttrValue.addr 8192⟩,
    ⟨AttrName.DW_AT_high_pc, AttrValue.udata 16⟩]⟩

/-- An inlined-only subprogram template `baz` (note: address attributes may
be present; the inline marker wins). -/
def exBazDef : Entry :=
  ⟨Tag.subprogram,
   [⟨AttrName.DW_AT_name, AttrValue.debugStrRef "baz"⟩,
    ⟨AttrName.DW_AT_low_pc, AttrValue.addr 4104⟩,
    ⟨AttrName.DW_AT_inline, AttrValue.inlineCode true⟩]⟩

/-- A named function definition with no address attributes and no inline
marker. -/
def exNoLowDef : Entry :=
  ⟨Tag.subprogram, [⟨AttrName.DW_AT_name, AttrValue.debugStrRef "qux"⟩]⟩

/-- A named function definition with a low address but no high offset. -/
def exNoHighDef : Entry :=
  ⟨Tag.subprogram,
   [⟨AttrName.DW_AT_name, AttrValue.debugStrRef "qux"⟩,
    ⟨AttrName.DW_AT_low_pc, AttrValue.addr 4096⟩]⟩

/-- A function definition carrying both a linkage name and a display name. -/
def exBothNamesDef : Entry :=
  ⟨Tag.subprogram,
   [⟨AttrName.DW_AT_name, AttrValue.debugStrRef "display"⟩,
    ⟨AttrName.DW_AT_linkage_name, AttrValue.debugStrRef "linkage"⟩,
    ⟨AttrName.DW_AT_low_pc, AttrValue.addr 4096⟩,
    ⟨AttrName.DW_AT_high_pc, AttrValue.udata 16⟩]⟩

/-- A function definition with no name at all. -/
def exNamelessDef : Entry :=
  ⟨Tag.subprogram,
   [⟨AttrName.DW_AT_low_pc, AttrValue.addr 4096⟩,
    ⟨AttrName.DW_AT_high_pc, AttrValue.udata 16⟩]⟩

/-- An inline call site referring to origin `baz` (unit offset 7), with the
low-address/high-offset pair `[0x1008, 0x100c)` and call file/line. -/
def exInlSite : Entry :=
  ⟨Tag.inlinedSubroutine,
   [⟨AttrName.DW_AT_abstract_origin, AttrValue.unitRef 7⟩,
    ⟨AttrName.DW_AT_low_pc, AttrValue.addr 4104⟩,
    ⟨AttrName.DW_AT_high_pc, AttrValue.udata 4⟩,
    ⟨AttrName.DW_AT_call_file, AttrValue.fileIndex 1⟩,
    ⟨AttrName.DW_AT_call_line, AttrValue.udata 10⟩]⟩

/-- An inline call site using an explicit range-list reference (offset 3)
instead of the address pair. -/
def exInlSiteRanges : Entry :=
  ⟨Tag.inlinedSubroutine,
   [⟨AttrName.DW_AT_abstract_origin, AttrValue.unitRef 7⟩,
    ⟨AttrName.DW_AT_ranges, AttrValue.rangeListsRef 3⟩,
    ⟨AttrName.DW_AT_call_file, AttrValue.fileIndex 1⟩,
    ⟨AttrName.DW_AT_call_line, AttrValue.udata 10⟩]⟩

/-- A unit with a single live function `foo`. -/
def exUnitFoo : DUnit := ⟨[(0, exRoot), (1, exFooDef)], [], []⟩

/-- A unit with live `foo` containing one inline call site (a direct child). -/
def exUnitFooInline : DUnit :=
  ⟨[(0, exRoot), (1, exFooDef), (1, exInlSite)], [(7, exBazDef)], []⟩

/-- A unit with live `foo` containing a *dead* nested definition `bar`
(depth 2) which in turn contains an inline call site (depth 3). -/
def exUnitDeadInline : DUnit :=
  ⟨[(0, exRoot), (1, exFooDef), (1, exBarDef), (1, exInlSite)], [(7, exBazDef)], []⟩

/-- A unit with two *sibling* live definitions of the same name `foo`. -/
def exUnitDupFoo : DUnit := ⟨[(0, exRoot), (1, exFooDef), (0, exFooDef)], [], []⟩

/-- A unit where a live `foo` definition directly contains another live
`foo` definition (Invariant C violation). -/
def exUnitNested : DUnit := ⟨[(0, exRoot), (1, exFooDef), (1, exFooDef)], [], []⟩

/-- A unit exercising the range-list form of an inline call site. -/
def exUnitRanges : DUnit :=
  ⟨[(0, exRoot), (1, exFooDef), (1, exInlSiteRanges)], [(7, exBazDef)],
   [(3, [(4100, 4102), (4110, 4111)])]⟩

/-- Name resolution of `mkSubprogram`: a produced subprogram is named by the
linkage-name-else-display-name resolution. -/
theorem mkSubprogram_name {depth : Int} {st : SubState} {sub : Subprogram}
    (h : mkSubprogram depth st = .ok (some sub)) :
    st.linkage_name.or st.name = some sub.name := by
  unfold mkSubprogram at h
  cases horn : st.linkage_name.or st.name with
  | none =>
      rw [horn] at h
      cases h
  | some nm =>
      simp only [horn] at h
      split at h
      · injection h with h
        injection h with h
        rw [← h]
      · split at h
        · cases h
        · split at h
          · cases h
          · injection h with h
            injection h with h
            rw [← h]

/-! ## Claim theorems -/

/-- C5: for a function-definition node from which the extractor obtains a
name: if the inlined marker is present the span is the no-address `Inlined`
marker regardless of address attributes; if it is absent the span is
`[low, low + offset)` from the two address attributes, and the absence of
either attribute is a fatal malformed-input error. -/
theorem c5_subprogram_span (e : Entry) (depth : Int) (st : SubState) (nm : String)
    (htag : e.tag = Tag.subprogram)
    (hscan : scanSub initSubState e.attrs = .ok st)
    (hname : st.linkage_name.or st.name = some nm) :
    (st.inlined = true →
      Subprogram.from_die e depth = .ok (some ⟨depth, nm, Span.inlined⟩)) ∧
    (∀ lo off, st.inlined = false → st.low_pc = some lo → st.pc_offset = some off →
      lo + off < u64Mod →
      Subprogram.from_die e depth = .ok (some ⟨depth, nm, Span.pc lo (lo + off)⟩)) ∧
    (st.inlined = false → st.low_pc = none →
      Subprogram.from_die e depth = .error .noLowPc) ∧
    (∀ lo, st.inlined = false → st.low_pc = some lo → st.pc_offset = none →
      Subprogram.from_die e depth = .error .noHighPc) := by
  have hfd : Subprogram.from_die e depth = mkSubprogram depth st := by
    unfold Subprogram.from_die
    rw [if_pos htag]
    simp only [hscan]
  refine ⟨?_, ?_, ?_, ?_⟩
  · intro hinl
    rw [hfd]
    unfold mkSubprogram
    simp [hname, hinl]
  · intro lo off hninl hlo hoff hover
    rw [hfd]
    unfold mkSubprogram
    simp [hname, hninl, hlo, hoff, Nat.mod_eq_of_lt hover]
  · intro hninl hlo
    rw [hfd]
    unfold mkSubprogram
    simp [hname, hninl, hlo]
  · intro lo hninl hlo hoff
    rw [hfd]
    unfold mkSubprogram
    simp [hname, hninl, hlo, hoff]

/-- Witness for C5 at concrete nodes: `baz` (inline marker wins over the
present low address), `foo` (address pair), and the two missing-attribute
aborts. -/
theorem c5_witness :
    Subprogram.from_die exBazDef 2 = .ok (some ⟨2, "baz", Span.inlined⟩) ∧
    Subprogram.from_die exFooDef 1 = .ok (some ⟨1, "foo", Span.pc 4096 4112⟩) ∧
    Subprogram.from_die exNoLowDef 1 = .error .noLowPc ∧
    Subprogram.from_die exNoHighDef 1 = .error .noHighPc := by
  refine ⟨?_, ?_, ?_, ?_⟩
  · exact (c5_subprogram_span exBazDef 2 _ "baz" rfl rfl rfl).1 rfl
  · exact (c5_subprogram_span exFooDef 1 _ "foo" rfl rfl rfl).2.1 4096 16 rfl rfl rfl (by decide)
  · exact (c5_subprogram_span exNoLowDef 1 _ "qux" rfl rfl rfl).2.2.1 rfl rfl
  · exact (c5_subprogram_span exNoHighDef 1 _ "qux" rfl rfl rfl).2.2.2 4096 rfl rfl rfl

/-- C6: name resolution takes the linkage name when present, else the
display name; with neither present extraction yields `none` (not an error)
and the walker skips the node, leaving the element list untouched and the
traversal state subject only to the ordinary leaving-check. -/
theorem c6_name_resolution (e : Entry) (depth : Int) (st : SubState)
    (htag : e.tag = Tag.subprogram)
    (hscan : scanSub initSubState e.attrs = .ok st) :
    (∀ l, st.linkage_name = some l →
      ∀ sub, Subprogram.from_die e depth = .ok (some sub) → sub.name = l) ∧
    (∀ n, st.linkage_name = none → st.name = some n →
      ∀ sub, Subprogram.from_die e depth = .ok (some sub) → sub.name = n) ∧
    (st.linkage_name = none → st.name = none →
      Subprogram.from_die e depth = .ok none) ∧
    (∀ (rd : String → String) (live : List String) (u : DUnit) (wst : WalkState)
        (step : Int × Entry), step.2 = e →
      Subprogram.from_die e (wst.depth + step.1) = .ok none →
      processEntry rd live u wst step =
        .ok ⟨wst.depth + step.1,
             updateSubprogramDepth wst.subprogram_depth (wst.depth + step.1), wst.elements⟩) := by
  have hfd : Subprogram.from_die e depth = mkSubprogram depth st := by
    unfold Subprogram.from_die
    rw [if_pos htag]
    simp only [hscan]
  refine ⟨?_, ?_, ?_, ?_⟩
  · intro l hl sub hsub
    rw [hfd] at hsub
    have horn := mkSubprogram_name hsub
    rw [hl] at horn
    injection horn with horn
    exact horn.symm
  · intro n hl hn sub hsub
    rw [hfd] at hsub
    have horn := mkSubprogram_name hsub
    rw [hl, hn] at horn
    injection horn with horn
    exact horn.symm
  · intro hl hn
    rw [hfd]
    unfold mkSubprogram
    rw [hl, hn]
    rfl
  · intro rd live u wst step hstep hnone
    have htag2 : step.2.tag = Tag.subprogram := by rw [hstep]; exact htag
    have hnone2 : Subprogram.from_die step.2 (wst.depth + step.1) = .ok none := by
      rw [hstep]; exact hnone
    exact processEntry_sub_none htag2 hnone2

/-- Witness for C6 at concrete nodes: linkage beats display, display is the
fallback, and a nameless node is skipped by the walker with no emission. -/
theorem c6_witness :
    Subprogram.from_die exBothNamesDef 1 = .ok (some ⟨1, "linkage", Span.pc 4096 4112⟩) ∧
    Subprogram.from_die exFooDef 1 = .ok (some ⟨1, "foo", Span.pc 4096 4112⟩) ∧
    Subprogram.from_die exNamelessDef 1 = .ok none ∧
    processEntry id ["foo"] exUnitFoo ⟨0, none, []⟩ (1, exNamelessDef) = .ok ⟨1, none, []⟩ := by
  refine ⟨?_, ?_, ?_, ?_⟩
  · have h := (c6_name_resolution exBothNamesDef 1 _ rfl rfl).1 "linkage" rfl
      ⟨1, "linkage", Span.pc 4096 4112⟩ rfl
    exact rfl
  · have h := (c6_name_resolution exFooDef 1 _ rfl rfl).2.1 "foo" rfl rfl
      ⟨1, "foo", Span.pc 4096 4112⟩ rfl
    exact rfl
  · exact (c6_name_resolution exNamelessDef 1 _ rfl rfl).2.2.1 rfl rfl
  · exact (c6_name_resolution exNamelessDef 1 _ rfl rfl).2.2.2 id ["foo"] exUnitFoo
      ⟨0, none, []⟩ (1, exNamelessDef) rfl rfl

/-- C7: the inlined-subroutine resolver prefers the first entry of the
referenced range list when the range-list attribute (in its expected form)
is present, otherwise derives `[low, low + offset)` from the address pair;
and a missing abstract origin, missing call file, or missing call line is in
each case a fatal malformed-input error. -/
theorem c7_inlined_resolver (e : Entry) (depth : Int) (u : DUnit) (st : InlState)
    (htag : e.tag = Tag.inlinedSubroutine)
    (hscan : scanInl u depth initInlState e.attrs = .ok st) :
    (∀ st0 off r rest, u.rangeLists.lookup off = some (r :: rest) →
      inlStep u depth st0 ⟨AttrName.DW_AT_ranges, AttrValue.rangeListsRef off⟩ =
        .ok { st0 with at_range := some r }) ∧
    (∀ r o cf cl, st.at_range = some r → st.origin = some o → st.call_file = some cf →
      st.call_line = some cl →
      InlinedSubroutine.from_die e depth u = .ok ⟨cf, cl, o, r⟩) ∧
    (∀ lo off o cf cl, st.at_range = none → st.low_pc = some lo →
      st.pc_offset = some off → lo + off < u64Mod → st.origin = some o →
      st.call_file = some cf → st.call_line = some cl →
      InlinedSubroutine.from_die e depth u = .ok ⟨cf, cl, o, (lo, lo + off)⟩) ∧
    (∀ r, st.at_range = some r → st.origin = none →
      InlinedSubroutine.from_die e depth u = .error .noAbstractOrigin) ∧
    (∀ r o, st.at_range = some r → st.origin = some o → st.call_file = none →
      InlinedSubroutine.from_die e depth u = .error .noCallFile) ∧
    (∀ r o cf, st.at_range = some r → st.origin = some o → st.call_file = some cf →
      st.call_line = none →
      InlinedSubroutine.from_die e depth u = .error .noCallLine) := by
  have hifd : InlinedSubroutine.from_die e depth u = mkInlinedSubroutine st := by
    unfold InlinedSubroutine.from_die
    rw [if_pos htag]
    simp only [hscan]
  refine ⟨?_, ?_, ?_, ?_, ?_, ?_⟩
  · intro st0 off r rest hlk
    unfold inlStep
    simp [hlk]
  · intro r o cf cl hr ho hcf hcl
    rw [hifd]
    unfold mkInlinedSubroutine
    simp [hr, ho, hcf, hcl]
  · intro lo off o cf cl hr hlo hoff hover ho hcf hcl
    rw [hifd]
    unfold mkInlinedSubroutine
    simp [hr, hlo, hoff, ho, hcf, hcl, Nat.mod_eq_of_lt hover]
  · intro r hr ho
    rw [hifd]
    unfold mkInlinedSubroutine
    simp [hr, ho]
  · intro r o hr ho hcf
    rw [hifd]
    unfold mkInlinedSubroutine
    simp [hr, ho, hcf]
  · intro r o cf hr ho hcf hcl
    rw [hifd]
    unfold mkInlinedSubroutine
    simp [hr, ho, hcf, hcl]

/-- Witness for C7 at concrete call sites: the range-list form resolves to
the first range-list entry, and the address-pair form to
`[low, low + offset)`. -/
theorem c7_witness :
    InlinedSubroutine.from_die exInlSiteRanges 2 exUnitRanges =
      .ok ⟨1, 10, ⟨2, "baz", Span.inlined⟩, (4100, 4102)⟩ ∧
    InlinedSubroutine.from_die exInlSite 2 exUnitFooInline =
      .ok ⟨1, 10, ⟨2, "baz", Span.inlined⟩, (4104, 4108)⟩ := by
  constructor
  · exact (c7_inlined_resolver exInlSiteRanges 2 exUnitRanges _ rfl rfl).2.1
      (4100, 4102) ⟨2, "baz", Span.inlined⟩ 1 10 rfl rfl rfl rfl
  · exact (c7_inlined_resolver exInlSite 2 exUnitFooInline _ rfl rfl).2.2.1
      4104 4 ⟨2, "baz", Span.inlined⟩ 1 10 rfl rfl rfl (by decide) rfl rfl rfl

/-- C8 counterexample: with the external demangling transform leaving the
input unchanged (unrecognized input), the trailing 19 characters
`::hzzzzzzzzzzzzzzzz` do NOT have the claimed exact `::h` + 16-hex-digit
shape (`z` is not a hexadecimal digit), yet the demangler strips them
instead of leaving them in place. -/
theorem c8_counterexample :
    ¬HasHexHashSuffix "abc::hzzzzzzzzzzzzzzzz" ∧
      demangle id "abc::hzzzzzzzzzzzzzzzz" = "abc" := by
  constructor
  · decide
  · rfl

/-- C8 (amended): the demangler never fails — it is the external demangling
transform followed by the suffix strip — and the strip removes the final 19
characters exactly when they begin with `::h`; the 16 characters after
`::h` are not checked to be hexadecimal digits. -/
theorem c8_demangle_strip (rd : String → String) (s : String) :
    demangle rd s = stripSpecAmended (rd s) := by
  unfold demangle
  exact stripHash_eq_spec (rd s)

/-- C9 counterexample: a demangled name that consists of nothing but the
`::h` + 16-hex-digit suffix strips to the empty string. -/
theorem c9_counterexample :
    HasHexHashSuffix "::haaaaaaaaaaaaaaaa" ∧ stripHash "::haaaaaaaaaaaaaaaa" = "" := by
  constructor
  · decide
  · rfl

/-- C9 (amended): stripping the suffix from a demangled name that ends in
the `::h` + 16-hex-digit hash never leaves the empty string, provided the
name is longer than the suffix itself (the result is empty exactly when the
whole name is the suffix). -/
theorem c9_strip_nonempty (s : String) (hsuf : HasHexHashSuffix s)
    (hlen : 19 < s.toList.length) : stripHash s ≠ "" := by
  obtain ⟨h19, htake, -⟩ := hsuf
  rw [stripHash_strips s h19 htake]
  intro hc
  have hnil : s.toList.take (s.toList.length - 19) = ([] : List Char) :=
    congrArg String.data hc
  rw [List.take_eq_nil_iff] at hnil
  rcases hnil with h | h
  · omega
  · rw [h] at hlen
    simp at hlen

/-- Witness for C9 at a concrete name with a nonempty base. -/
theorem c9_witness : stripHash "x::haaaaaaaaaaaaaaaa" ≠ "" :=
  c9_strip_nonempty "x::haaaaaaaaaaaaaaaa" (by decide) (by decide)

/-- C10: a named debug section that is present but whose uncompressed data
cannot be obtained loads as the empty byte slice — exactly as an absent
section — with no error reported, so `from` proceeds as if the section were
empty. -/
theorem c10_load_section_error_as_empty
    (section_by_name : String → Option (Except String (List Nat))) (id : String) :
    (∀ e, section_by_name id = some (.error e) →
      load_section section_by_name id = .ok []) ∧
    (section_by_name id = none → load_section section_by_name id = .ok []) := by
  constructor
  · intro e he
    unfold load_section
    rw [he]
  · intro he
    unfold load_section
    rw [he]

/-- Witness for C10: a section present with failing decompression and an
absent section load identically as empty. -/
theorem c10_witness :
    load_section (fun n => if n = ".debug_info" then some (.error "bad") else none)
      ".debug_info" = .ok [] ∧
    load_section (fun _ => none) ".debug_abbrev" = .ok [] := by
  constructor
  · exact (c10_load_section_error_as_empty _ ".debug_info").1 "bad" (by simp)
  · exact (c10_load_section_error_as_empty _ ".debug_abbrev").2 rfl

/-- C1 counterexample: two sibling live definitions of the same name `foo`
with the same span put the same `(range, name, depth)` entry into the map
twice, so the map does not contain *exactly one* entry for the live name
`foo`, and `foo`'s address range is added more than once. -/
theorem c1_counterexample :
    «from» id ["foo"] [exUnitDupFoo] =
      .ok [⟨(4096, 4112), ⟨"foo", 1⟩⟩, ⟨(4096, 4112), ⟨"foo", 1⟩⟩] ∧
    List.count (⟨(4096, 4112), ⟨"foo", 1⟩⟩ : Element)
      [⟨(4096, 4112), ⟨"foo", 1⟩⟩, ⟨(4096, 4112), ⟨"foo", 1⟩⟩] = 2 := by
  constructor
  · rfl
  · rfl

/-- C1 (amended): each live span-bearing function-definition *node*
processed by the walker emits exactly one entry — range equal to its
declared `[low, high)` interval, name equal to the demangled resolved name,
depth equal to the traversal depth — appended as a single element, and that
entry is present in the final map; a name defined by several nodes gets one
entry per node, so per-name uniqueness holds only when the name has a unique
defining node. -/
theorem c1_live_span_single_emission (rd : String → String) (live : List String)
    (us1 : List DUnit) (u : DUnit) (us2 : List DUnit) (acc : List Element)
    (s0 step : Int × Entry) (pre post : List (Int × Entry)) (st : WalkState)
    (sub : Subprogram) (lo hi : Nat) (es : Map)
    (hus1 : runUnits rd live [] us1 = .ok acc)
    (hsteps : u.steps = s0 :: (pre ++ step :: post))
    (hpre : runSteps rd live u ⟨0, none, acc⟩ pre = .ok st)
    (htag : step.2.tag = Tag.subprogram)
    (hfd : Subprogram.from_die step.2 (st.depth + step.1) = .ok (some sub))
    (hsp : sub.span = Span.pc lo hi)
    (hlive : live.contains sub.name = true)
    (hupd : updateSubprogramDepth st.subprogram_depth (st.depth + step.1) = none)
    (hfrom : «from» rd live (us1 ++ u :: us2) = .ok es) :
    processEntry rd live u st step =
      .ok ⟨st.depth + step.1, some (st.depth + step.1),
           st.elements ++ [⟨(lo, hi), ⟨demangle rd sub.name, st.depth + step.1⟩⟩]⟩ ∧
    ⟨(lo, hi), ⟨demangle rd sub.name, st.depth + step.1⟩⟩ ∈ es := by
  have hpe := @processEntry_sub_live_clear rd live u st step sub lo hi htag hfd hsp hlive hupd
  refine ⟨hpe, ?_⟩
  exact element_in_from hus1 hsteps hpre hpe hfrom _ (by simp)

/-- Witness for C1 at the single-live-function unit. -/
theorem c1_witness :
    processEntry id ["foo"] exUnitFoo ⟨0, none, []⟩ (1, exFooDef) =
      .ok ⟨1, some 1, [⟨(4096, 4112), ⟨"foo", 1⟩⟩]⟩ ∧
    (⟨(4096, 4112), ⟨"foo", 1⟩⟩ : Element) ∈ [(⟨(4096, 4112), ⟨"foo", 1⟩⟩ : Element)] := by
  have h := c1_live_span_single_emission id ["foo"] [] exUnitFoo [] [] (0, exRoot)
    (1, exFooDef) [] [] ⟨0, none, []⟩ ⟨1, "foo", Span.pc 4096 4112⟩ 4096 4112
    [⟨(4096, 4112), ⟨"foo", 1⟩⟩] rfl rfl rfl rfl rfl rfl rfl rfl rfl
  exact h

/-- C2 counterexample: in a unit where the live `foo` (depth 1) contains a
*dead* definition `bar` (depth 2, not in the live set) which contains an
inline call site (depth 3), the call site lexically inside the dead `bar`
still emits a map entry, because the inside-live state set by the enclosing
`foo` persists through `bar`'s subtree. -/
theorem c2_counterexample :
    «from» id ["foo"] [exUnitDeadInline] =
      .ok [⟨(4096, 4112), ⟨"foo", 1⟩⟩, ⟨(4104, 4108), ⟨"baz", 3⟩⟩] ∧
    (["foo"].contains "bar") = false := by
  constructor
  · rfl
  · rfl

/-- C2 (amended): a dead (non-live) function-definition node emits no entry
derived from its own span and never activates the inside-live state; an
inline call site emits only while the inside-live state is active, so call
sites inside a dead function emit nothing *unless* a live function's span
(enclosing the dead function, or nested inside it) has activated that
state. -/
theorem c2_dead_function_no_emission (rd : String → String) (live : List String)
    (u : DUnit) (st : WalkState) (step : Int × Entry) :
    (∀ sub, step.2.tag = Tag.subprogram →
      Subprogram.from_die step.2 (st.depth + step.1) = .ok (some sub) →
      live.contains sub.name = false →
      processEntry rd live u st step =
        .ok ⟨st.depth + step.1,
             updateSubprogramDepth st.subprogram_depth (st.depth + step.1), st.elements⟩) ∧
    (step.2.tag = Tag.inlinedSubroutine →
      updateSubprogramDepth st.subprogram_depth (st.depth + step.1) = none →
      processEntry rd live u st step = .ok ⟨st.depth + step.1, none, st.elements⟩) := by
  constructor
  · intro sub htag hfd hlive
    cases hsp : sub.span with
    | pc lo hi => exact processEntry_sub_dead htag hfd hsp hlive
    | inlined => exact processEntry_sub_inlined htag hfd hsp
  · intro htag hupd
    exact processEntry_inl_skip htag hupd

/-- Witness for C2: the dead `bar` emits nothing and keeps the inside-live
state of the enclosing `foo`; an inline site outside any live span emits
nothing. -/
theorem c2_witness :
    processEntry id ["foo"] exUnitDeadInline
      ⟨1, some 1, [⟨(4096, 4112), ⟨"foo", 1⟩⟩]⟩ (1, exBarDef) =
      .ok ⟨2, some 1, [⟨(4096, 4112), ⟨"foo", 1⟩⟩]⟩ ∧
    processEntry id ["foo"] exUnitFooInline ⟨0, none, []⟩ (1, exInlSite) =
      .ok ⟨1, none, []⟩ := by
  constructor
  · exact (c2_dead_function_no_emission id ["foo"] exUnitDeadInline
      ⟨1, some 1, [⟨(4096, 4112), ⟨"foo", 1⟩⟩]⟩ (1, exBarDef)).1
      ⟨2, "bar", Span.pc 8192 8208⟩ rfl rfl rfl
  · exact (c2_dead_function_no_emission id ["foo"] exUnitFooInline
      ⟨0, none, []⟩ (1, exInlSite)).2 rfl rfl

/-- C3: an inline-call-site node visited while the inside-live state is
active emits exactly one entry whose range is the call site's resolved
address range and whose name is the demangled origin name (not any identity
of the call site itself), that entry reaches the final map, and its depth is
strictly greater than the enclosing live function's depth (in particular
when the call site is a direct child of that function's node). -/
theorem c3_inline_emission (rd : String → String) (live : List String)
    (us1 : List DUnit) (u : DUnit) (us2 : List DUnit) (acc : List Element)
    (s0 step : Int × Entry) (pre post : List (Int × Entry)) (st : WalkState)
    (d : Int) (inl : InlinedSubroutine) (es : Map)
    (hus1 : runUnits rd live [] us1 = .ok acc)
    (hsteps : u.steps = s0 :: (pre ++ step :: post))
    (hpre : runSteps rd live u ⟨0, none, acc⟩ pre = .ok st)
    (htag : step.2.tag = Tag.inlinedSubroutine)
    (hupd : updateSubprogramDepth st.subprogram_depth (st.depth + step.1) = some d)
    (hifd : InlinedSubroutine.from_die step.2 (st.depth + step.1) u = .ok inl)
    (hfrom : «from» rd live (us1 ++ u :: us2) = .ok es) :
    d < st.depth + step.1 ∧
    processEntry rd live u st step =
      .ok ⟨st.depth + step.1, some d,
           st.elements ++ [⟨inl.pc, ⟨demangle rd inl.origin.name, st.depth + step.1⟩⟩]⟩ ∧
    ⟨inl.pc, ⟨demangle rd inl.origin.name, st.depth + step.1⟩⟩ ∈ es := by
  have hpe := @processEntry_inl_emit rd live u st step d inl htag hupd hifd
  refine ⟨(updateSubprogramDepth_some hupd).2, hpe, ?_⟩
  exact element_in_from hus1 hsteps hpre hpe hfrom _ (by simp)

/-- Witness for C3 at the live-`foo`-plus-inline-site unit: the call site at
depth 2 is a direct child of `foo` at depth 1, emits `baz`'s demangled name
over `[0x1008, 0x100c)`, and strictly exceeds `foo`'s depth. -/
theorem c3_witness :
    (1 : Int) < 2 ∧
    processEntry id ["foo"] exUnitFooInline ⟨1, some 1, [⟨(4096, 4112), ⟨"foo", 1⟩⟩]⟩
      (1, exInlSite) =
      .ok ⟨2, some 1, [⟨(4096, 4112), ⟨"foo", 1⟩⟩, ⟨(4104, 4108), ⟨"baz", 2⟩⟩]⟩ ∧
    (⟨(4104, 4108), ⟨"baz", 2⟩⟩ : Element) ∈
      [(⟨(4096, 4112), ⟨"foo", 1⟩⟩ : Element), ⟨(4104, 4108), ⟨"baz", 2⟩⟩] := by
  have h := c3_inline_emission id ["foo"] [] exUnitFooInline [] [] (0, exRoot)
    (1, exInlSite) [(1, exFooDef)] [] ⟨1, some 1, [⟨(4096, 4112), ⟨"foo", 1⟩⟩]⟩ 1
    ⟨1, 10, ⟨2, "baz", Span.inlined⟩, (4104, 4108)⟩
    [⟨(4096, 4112), ⟨"foo", 1⟩⟩, ⟨(4104, 4108), ⟨"baz", 2⟩⟩]
    rfl rfl rfl rfl rfl rfl rfl
  exact h

/-- C4: encountering a live span-bearing function definition while the
traversal is still inside another live function's span aborts the whole pass
with the nested-subprogram structural error (no partial map); conversely,
when no live span-bearing definition is nested inside another live
function's span in any unit, that failure is never produced. -/
theorem c4_nested_live_subprogram (rd : String → String) (live : List String) :
    (∀ (us1 : List DUnit) (u : DUnit) (us2 : List DUnit) (acc : List Element)
        (s0 step : Int × Entry) (pre post : List (Int × Entry)) (st : WalkState)
        (sub : Subprogram) (lo hi : Nat),
      runUnits rd live [] us1 = .ok acc →
      u.steps = s0 :: (pre ++ step :: post) →
      runSteps rd live u ⟨0, none, acc⟩ pre = .ok st →
      step.2.tag = Tag.subprogram →
      Subprogram.from_die step.2 (st.depth + step.1) = .ok (some sub) →
      sub.span = Span.pc lo hi →
      live.contains sub.name = true →
      (updateSubprogramDepth st.subprogram_depth (st.depth + step.1)).isSome = true →
      «from» rd live (us1 ++ u :: us2) = .error .nestedSubprogram) ∧
    (∀ units : List DUnit, (∀ u ∈ units, NoNestedLive live u.steps.tail) →
      «from» rd live units ≠ .error .nestedSubprogram) := by
  constructor
  · intro us1 u us2 acc s0 step pre post st sub lo hi hus1 hsteps hpre htag hfd hsp hlive hupd
    have hpe := @processEntry_sub_live_nested rd live u st step sub lo hi htag hfd hsp hlive hupd
    have hru : runUnit rd live u acc = .error .nestedSubprogram := by
      unfold runUnit
      simp only [hsteps]
      rw [runSteps_append]
      simp only [hpre]
      simp only [runSteps]
      simp only [hpe]
    unfold «from»
    rw [runUnits_append]
    simp only [hus1]
    simp only [runUnits]
    simp only [hru]
  · intro units hnn
    exact runUnits_no_nested units [] hnn

/-- Witness for C4: the nested-live unit aborts the pass with the
nested-subprogram error, while the unit whose only live definition contains
just an inline call site — satisfying the no-nested-live precondition —
never produces that error. -/
theorem c4_witness :
    «from» id ["foo"] [exUnitNested] = .error .nestedSubprogram ∧
    «from» id ["foo"] [exUnitFooInline] ≠ .error .nestedSubprogram := by
  constructor
  · exact (c4_nested_live_subprogram id ["foo"]).1 [] exUnitNested [] [] (0, exRoot)
      (1, exFooDef) [(1, exFooDef)] [] ⟨1, some 1, [⟨(4096, 4112), ⟨"foo", 1⟩⟩]⟩
      ⟨2, "foo", Span.pc 4096 4112⟩ 4096 4112 rfl rfl rfl rfl rfl rfl rfl rfl
  · apply (c4_nested_live_subprogram id ["foo"]).2
    intro u hu
    rw [List.mem_singleton] at hu
    subst hu
    intro p1 x p2 y p3 hsplit hx hy
    have hsplit2 : [(1, exFooDef), ((1 : Int), exInlSite)] = p1 ++ x :: (p2 ++ y :: p3) :=
      hsplit
    have hlen := congrArg List.length hsplit2
    simp [List.length_append] at hlen
    have hp1 : p1 = [] := List.length_eq_zero.mp (by omega)
    have hp2 : p2 = [] := List.length_eq_zero.mp (by omega)
    have hp3 : p3 = [] := List.length_eq_zero.mp (by omega)
    subst hp1
    subst hp2
    subst hp3
    simp at hsplit2
    obtain ⟨hxe, hye⟩ := hsplit2
    rw [← hye] at hy
    exact absurd hy (by decide)
